import Mathlib

/-!
Shallow embedding of `src/src/video/nvcodec/cuda_threaded_decoder.cc`
(the `decord::cuda::CUThreadedDecoder` class).

The decoder's mutable state is modelled as a record `DecState`; the public
operations `Push`, `Pop`, `Start`, `Stop`, `Clear` and the body of one
iteration of `ConvertThread` are modelled as pure state transformers.
`CHECK(...)` failures (glog fatal assertions) are modelled as the `.error`
branch of `Except String`; a returned error means the operation aborted
before producing a new state.

The thread-safe queues (`ThreadsafeQueue`) of the repository are not under
`src/`; following the specification (§4.1), a queue is a FIFO list whose
`Push` appends and whose `Pop` takes the head.  Kill signals and blocking
are not represented: a `Pop` on an empty queue corresponds in the code to a
blocked or killed pop, and every theorem below only exercises pops that the
code would serve without blocking.

The per-slot permit protocol driven by the NVDEC callbacks
(`HandlePictureDecode_` / `ConvertThread`'s final release) is modelled
separately as a transition system `CBStep` on `CBState`, since those
events are produced by the decode engine rather than by a caller.
-/

namespace Decord

/-- An `AVPacket` as far as `Push` inspects it: a presentation timestamp
(`pkt->pts`) and a declared duration (`pkt->duration`), both `int64_t` in
the source, modelled as `Int`.  An end-of-stream marker is a `none` of
`Option Pkt` (a null `AVPacketPtr`). -/
structure Pkt where
  pts : Int
  duration : Int
deriving DecidableEq, Repr

/-- An output buffer (`NDArray buf`); only its identity matters here. -/
abbrev Buf := Nat

/-- `std::map::erase` at key `k` of the reorder map (assoc list with unique
keys). -/
def eraseKey (k : Int) (l : List (Int × Buf)) : List (Int × Buf) :=
  l.filter (fun kv => kv.1 ≠ k)

/-- `reorder_buffer_[k] = v`: `std::map` indexed assignment (insert or
overwrite). -/
def mapInsert (k : Int) (v : Buf) (l : List (Int × Buf)) : List (Int × Buf) :=
  (k, v) :: eraseKey k l

/-- `reorder_buffer_.find(k)`: lookup in the reorder map. -/
def mapFind (k : Int) : List (Int × Buf) → Option Buf
  | [] => none
  | (k', v) :: rest => if k' = k then some v else mapFind k rest

/-- `kMaxOutputSurfaces`.  Modelled from the spec: the constant lives in
`cuda_threaded_decoder.h`, which is not part of the provided source; the
spec only says it is a fixed number of decode surfaces.  Its concrete value
is immaterial to every claim below (the callback model is parametric in the
slot count). -/
def kMaxOutputSurfaces : Nat := 8

/-- The decoder state: the fields of `CUThreadedDecoder` that the modelled
operations read or write.

* `run` — `run_` (atomic bool)
* `draining` — `draining_` (atomic bool)
* `frameCount` — `frame_count_` (atomic signed counter)
* `lastPts` — `last_pts_` (running expected-order cursor, `int64_t`)
* `frameOrder` — `frame_order_` (Expected-Order Sequence, FIFO of keys)
* `pktQueue` — `pkt_queue_` (submitted packets, `none` = EOS marker)
* `frameQueue` — `frame_queue_` (submitted output buffers, FIFO)
* `bufferQueue` — `buffer_queue_` (ready-surface display timestamps, FIFO;
  `disp_info->timestamp` is the only field the converter's reorder logic
  reads, the slot index is handled in the callback model)
* `reorderQueue` — `reorder_queue_` (output queue read by `Pop`)
* `reorderBuffer` — `reorder_buffer_` (Reorder Map)
* `permits` — `permits_` (vector of per-slot token queues; each entry is
  the number of tokens in that slot's queue)
* `launcherJoinable` / `converterJoinable` — whether `launcher_t_` /
  `converter_t_` are joinable
* `spawned` — instrumentation: number of `std::thread` objects ever
  spawned, to express "Start spawns no additional threads". -/
structure DecState where
  run : Bool
  draining : Bool
  frameCount : Int
  lastPts : Int
  frameOrder : List Int
  pktQueue : List (Option Pkt)
  frameQueue : List Buf
  bufferQueue : List Int
  reorderQueue : List Buf
  reorderBuffer : List (Int × Buf)
  permits : List Nat
  launcherJoinable : Bool
  converterJoinable : Bool
  spawned : Nat
deriving DecidableEq, Repr

/-- The state established by the constructor: everything empty or false,
`last_pts_(-1)`, `frame_count_(0)`. -/
def initState : DecState :=
  { run := false, draining := false, frameCount := 0, lastPts := -1,
    frameOrder := [], pktQueue := [], frameQueue := [], bufferQueue := [],
    reorderQueue := [], reorderBuffer := [], permits := [],
    launcherJoinable := false, converterJoinable := false, spawned := 0 }

/-- `CUThreadedDecoder::Push(pkt, buf)` (cuda_threaded_decoder.cc:233-258).

Control flow of the source, flattened over the shape of `pkt`:
`CHECK(run_.load())`; if `pkt` is null, `CHECK(!draining_.load())` then
`draining_ = true`; if `pkt` is non-null, seed or advance `last_pts_` and
append the key to `frame_order_`; finally push `pkt` to `pkt_queue_`,
`buf` to `frame_queue_` and increment `frame_count_`. -/
def push (pkt : Option Pkt) (buf : Buf) (s : DecState) : Except String DecState :=
  if s.run then
    match pkt with
    | none =>
      if s.draining then .error "Start draining twice..."
      else
        .ok { s with draining := true,
                     pktQueue := s.pktQueue ++ [none],
                     frameQueue := s.frameQueue ++ [buf],
                     frameCount := s.frameCount + 1 }
    | some p =>
      if s.lastPts < 0 then
        .ok { s with lastPts := p.pts,
                     frameOrder := s.frameOrder ++ [p.pts],
                     pktQueue := s.pktQueue ++ [some p],
                     frameQueue := s.frameQueue ++ [buf],
                     frameCount := s.frameCount + 1 }
      else
        .ok { s with lastPts := s.lastPts + p.duration,
                     frameOrder := s.frameOrder ++ [s.lastPts + p.duration],
                     pktQueue := s.pktQueue ++ [some p],
                     frameQueue := s.frameQueue ++ [buf],
                     frameCount := s.frameCount + 1 }
  else .error "Check failed: run_.load()"

/-- `CUThreadedDecoder::Pop(frame)` (cuda_threaded_decoder.cc:260-271).
Returns `(none, s)` where the code returns `false`; otherwise pops the
head of `reorder_queue_` and decrements `frame_count_`. -/
def pop (s : DecState) : Option Buf × DecState :=
  if s.frameCount = 0 ∧ s.draining = false then (none, s)
  else
    match s.reorderQueue with
    | [] => (none, s)
    | b :: rest =>
      (some b, { s with reorderQueue := rest, frameCount := s.frameCount - 1 })

/-- `CUThreadedDecoder::Start()` (cuda_threaded_decoder.cc:114-141).
No-op if already running; otherwise re-creates all queues (fresh and
empty), `CHECK(permits_.size() == 0)`, loads one token per slot, sets
`run_`, and spawns the two worker threads.  `frame_count_`, `last_pts_`,
`draining_` and `reorder_buffer_` are not touched by `Start`. -/
def start (s : DecState) : Except String DecState :=
  if s.run then .ok s
  else if s.permits = [] then
    .ok { s with pktQueue := [], frameQueue := [], bufferQueue := [],
                 reorderQueue := [], frameOrder := [],
                 permits := List.replicate kMaxOutputSurfaces 1,
                 run := true,
                 launcherJoinable := true, converterJoinable := true,
                 spawned := s.spawned + 2 }
  else .error "Check failed: permits_.size() == 0"

/-- `CUThreadedDecoder::Stop()` (cuda_threaded_decoder.cc:143-162).
If running, signals every queue for kill and clears `run_`; then joins
both worker threads when joinable.  Kill signals do not drop queued items
(spec §4.1: killed queues still deliver buffered items), so no queue
content changes here. -/
def stop (s : DecState) : DecState :=
  let s' := if s.run then { s with run := false } else s
  { s' with launcherJoinable := false, converterJoinable := false }

/-- `CUThreadedDecoder::Clear()` (cuda_threaded_decoder.cc:164-173).
`Stop()`, then `frame_count_.store(0)`, `reorder_buffer_.clear()`,
`permits_.clear()`.  Note: `frame_order_`, `last_pts_` and `draining_`
are not reset. -/
def clear (s : DecState) : DecState :=
  let s' := stop s
  { s' with frameCount := 0, reorderBuffer := [], permits := [] }

/-- One iteration of `CUThreadedDecoder::ConvertThread`
(cuda_threaded_decoder.cc:312-361), restricted to the queue/reorder logic
(the CUDA colour conversion writes pixels into `arr` and is external):
pop a ready-surface descriptor from `buffer_queue_`, pop the next caller
buffer from `frame_queue_`, pop the next expected key from `frame_order_`;
if the key equals the surface timestamp, emit the buffer to
`reorder_queue_`; otherwise store it in `reorder_buffer_` under the actual
timestamp, immediately `find` that same key, emit the found entry and
erase it.  An empty queue corresponds to a blocked or exiting thread and
leaves the state unchanged (the theorems only run this with data
available).  The permit release on `permits_[disp_info->picture_index]`
is modelled in the callback transition system `CBStep` below. -/
def convertStep (s : DecState) : DecState :=
  match s.bufferQueue with
  | [] => s
  | ts :: bq =>
    match s.frameQueue with
    | [] => s
    | arr :: fq =>
      match s.frameOrder with
      | [] => { s with bufferQueue := bq, frameQueue := fq }
      | desired :: fo =>
        if desired = ts then
          { s with bufferQueue := bq, frameQueue := fq, frameOrder := fo,
                   reorderQueue := s.reorderQueue ++ [arr] }
        else
          let rb := mapInsert ts arr s.reorderBuffer
          match mapFind ts rb with
          | some v =>
            { s with bufferQueue := bq, frameQueue := fq, frameOrder := fo,
                     reorderQueue := s.reorderQueue ++ [v],
                     reorderBuffer := eraseKey ts rb }
          | none =>
            { s with bufferQueue := bq, frameQueue := fq, frameOrder := fo,
                     reorderBuffer := rb }

/-- `CUThreadedDecoder::HandlePictureDisplay_` (cuda_threaded_decoder.cc:
223-231): pushes the ready surface's descriptor (its timestamp, the field
the converter reads) onto `buffer_queue_`. -/
def handlePictureDisplay (ts : Int) (s : DecState) : DecState :=
  { s with bufferQueue := s.bufferQueue ++ [ts] }

/-- Deliver a sequence of display-ready events in order. -/
def displayAll : List Int → DecState → DecState
  | [], s => s
  | t :: ts, s => displayAll ts (handlePictureDisplay t s)

/-- Run `n` converter iterations. -/
def convertN : Nat → DecState → DecState
  | 0, s => s
  | n + 1, s => convertN n (convertStep s)

/-- `Push` each `(packet, buffer)` pair in order. -/
def pushAll : List (Pkt × Buf) → DecState → Except String DecState
  | [], s => .ok s
  | (p, b) :: rest, s =>
    match push (some p) b s with
    | .ok s' => pushAll rest s'
    | .error e => .error e

/-- `Pop` up to `n` times, collecting the successfully returned buffers;
stops at the first unsuccessful `Pop`. -/
def popN : Nat → DecState → List Buf × DecState
  | 0, s => ([], s)
  | n + 1, s =>
    match pop s with
    | (some b, s') =>
      let r := popN n s'
      (b :: r.1, r.2)
    | (none, s') => ([], s')

/-- The state right after `Start()` on a freshly constructed decoder. -/
def startedState : DecState :=
  { initState with run := true,
                   permits := List.replicate kMaxOutputSurfaces 1,
                   launcherJoinable := true, converterJoinable := true,
                   spawned := 2 }

/-! ## The permit / callback protocol

`HandlePictureDecode_` and the permit release at the end of a
`ConvertThread` iteration race on the per-slot permit queues; they are
modelled as a transition system on the permit-relevant projection of the
decoder state. -/

/-- One decode slot: `permits` is the number of tokens currently in
`permits_[slot]` (a capacity-1 queue loaded with one token at `Start`);
`inflight` records that `cuvidDecodePicture` was submitted for this slot
and the converter has not yet released it. -/
structure Slot where
  permits : Nat
  inflight : Bool
deriving DecidableEq, Repr

/-- Projection of the decoder state seen by the callbacks: the `run_` flag
and the per-slot permit state. -/
structure CBState where
  run : Bool
  slots : List Slot
deriving DecidableEq, Repr

/-- The callback-visible state right after `Start()`: running, one permit
token per slot, nothing in flight (cuda_threaded_decoder.cc:126-135). -/
def cbInit (n : Nat) : CBState :=
  { run := true, slots := List.replicate n ⟨1, false⟩ }

/-- `CUThreadedDecoder::HandlePictureDecode_` (cuda_threaded_decoder.cc:
207-221): bounds-check the slot index, busy-wait for the slot's permit
queue to be non-empty and pop the token, then check `run_`; if `run_` is
false (or the pop failed on a killed queue) return `0` without submitting
the decode and without restoring the token; otherwise submit
`cuvidDecodePicture` and return `1`.  The `sl.permits = 0` branch models
the pop failing on a killed queue (`!ret`), i.e. no token was obtained. -/
def handlePictureDecode (i : Nat) (s : CBState) : Nat × CBState :=
  match s.slots[i]? with
  | none => (0, s)
  | some sl =>
    if 1 ≤ sl.permits then
      if s.run then
        (1, { s with slots := s.slots.set i ⟨sl.permits - 1, true⟩ })
      else
        (0, { s with slots := s.slots.set i ⟨sl.permits - 1, sl.inflight⟩ })
    else (0, s)

/-- The events that touch the permit state after `Start`:
* `decode i` — the engine invokes the decode-request callback for slot `i`;
* `convert i` — a `ConvertThread` iteration finishes reading slot `i`'s
  surface and executes `permits_[disp_info->picture_index]->Push(1)`
  (cuda_threaded_decoder.cc:359); a surface is only handed to the
  converter after a decode for that slot was submitted, i.e. while the
  slot is in flight;
* `stopRun` — `Stop()` clears `run_` (cuda_threaded_decoder.cc:146). -/
inductive CBStep : CBState → CBState → Prop
  | decode (i : Nat) (s : CBState) : CBStep s (handlePictureDecode i s).2
  | convert (i : Nat) (s : CBState) (sl : Slot) (hi : s.slots[i]? = some sl)
      (hf : sl.inflight = true) :
      CBStep s { s with slots := s.slots.set i ⟨sl.permits + 1, false⟩ }
  | stopRun (s : CBState) : CBStep s { s with run := false }

/-- States reachable from a freshly started `n`-slot pipeline. -/
def CBReach (n : Nat) (s : CBState) : Prop :=
  Relation.ReflTransGen CBStep (cbInit n) s

/-- The per-slot permit invariant: tokens in the permit queue plus the
in-flight decode (if any) never exceed the slot's capacity of one. -/
def slotOK (sl : Slot) : Prop :=
  sl.permits + (if sl.inflight then 1 else 0) ≤ 1

/-- The inductive invariant of the callback system. -/
def cbInv (n : Nat) (s : CBState) : Prop :=
  s.slots.length = n ∧ ∀ sl ∈ s.slots, slotOK sl

/-- The end-to-end scenario of the spec (§8): starting from a fresh
decoder, `Start`, `Push` each (packet, buffer) pair, `Push` the
end-of-stream marker with a placeholder buffer, let the engine deliver
one display-ready event per packet (with whatever timestamps it reports)
and run the converter once per event, then `Pop` once per packet and once
more.  Returns the successfully popped buffers and the result of the
extra `Pop`. -/
def scenario (pairs : List (Pkt × Buf)) (ph : Buf) (disp : List Int) :
    Except String (List Buf × Option Buf) :=
  match start initState with
  | .error e => .error e
  | .ok s0 =>
    match pushAll pairs s0 with
    | .error e => .error e
    | .ok s1 =>
      match push none ph s1 with
      | .error e => .error e
      | .ok s2 =>
        let s3 := convertN disp.length (displayAll disp s2)
        let r := popN pairs.length s3
        .ok (r.1, (pop r.2).1)

/-- The keys the feeder's cursor produces for a packet list, starting
from cursor value `c`: each packet advances the cursor by its duration
and the advanced value is its key. -/
def keysFrom (c : Int) : List Pkt → List Int
  | [] => []
  | p :: ps => (c + p.duration) :: keysFrom (c + p.duration) ps

/-- `Start` on a fresh decoder followed by `Push` of the end-of-stream
marker with placeholder buffer 99. -/
def sEOS : DecState :=
  { startedState with draining := true, pktQueue := [none],
                      frameQueue := [99], frameCount := 1 }

/-- `Start` on a fresh decoder followed by `Push` of one packet with
timestamp 100, duration 100, buffer 0. -/
def sPushed : DecState :=
  { startedState with lastPts := 100, frameOrder := [100],
                      pktQueue := [some ⟨100, 100⟩], frameQueue := [0],
                      frameCount := 1 }

/-- A converter-input state with a mismatched timestamp: one ready
surface with timestamp 50, one caller buffer 7, expected key 100. -/
def sMismatch : DecState :=
  { initState with bufferQueue := [50], frameQueue := [7], frameOrder := [100] }

/-! ## Basic lemmas -/

theorem start_initState : start initState = .ok startedState := rfl

theorem cbInv_init (n : Nat) : cbInv n (cbInit n) := by
  constructor
  · simp [cbInit]
  · intro sl hsl
    rw [cbInit] at hsl
    simp only [List.mem_replicate] at hsl
    rw [hsl.2]
    simp [slotOK]

theorem mem_set_cases {l : List Slot} {i : Nat} {x sl : Slot}
    (h : sl ∈ l.set i x) : sl ∈ l ∨ sl = x :=
  List.mem_or_eq_of_mem_set h

theorem cbInv_step {n : Nat} {s t : CBState} (hs : cbInv n s)
    (hst : CBStep s t) : cbInv n t := by
  obtain ⟨hlen, hok⟩ := hs
  cases hst with
  | decode i s =>
    rw [handlePictureDecode]
    cases hget : s.slots[i]? with
    | none => exact ⟨hlen, hok⟩
    | some sl =>
      have hmem : sl ∈ s.slots := by
        have := List.getElem?_eq_some.mp hget
        obtain ⟨hlt, hEq⟩ := this
        exact hEq ▸ List.getElem_mem hlt
      have hsl : slotOK sl := hok sl hmem
      by_cases hp : 1 ≤ sl.permits
      · have hperm : sl.permits = 1 := by
          rw [slotOK] at hsl
          by_cases hf : sl.inflight <;> simp [hf] at hsl <;> omega
        by_cases hr : s.run
        · simp only [hp, if_pos, hr, if_true]
          refine ⟨by simpa using hlen, ?_⟩
          intro x hx
          rcases mem_set_cases hx with h | h
          · exact hok x h
          · rw [h, slotOK]; simp [hperm]
        · simp only [hp, if_pos, hr, if_false]
          refine ⟨by simpa using hlen, ?_⟩
          intro x hx
          rcases mem_set_cases hx with h | h
          · exact hok x h
          · rw [h, slotOK]
            rw [slotOK] at hsl
            simp only [hperm]
            omega
      · simp only [if_neg hp]
        exact ⟨hlen, hok⟩
  | convert i s sl hi hf =>
    have hmem : sl ∈ s.slots := by
      have := List.getElem?_eq_some.mp hi
      obtain ⟨hlt, hEq⟩ := this
      exact hEq ▸ List.getElem_mem hlt
    have hsl : slotOK sl := hok sl hmem
    have hperm : sl.permits = 0 := by
      rw [slotOK, hf] at hsl
      simp at hsl
      omega
    refine ⟨by simpa using hlen, ?_⟩
    intro x hx
    rcases mem_set_cases hx with h | h
    · exact hok x h
    · rw [h, slotOK]; simp [hperm]
  | stopRun s => exact ⟨hlen, hok⟩

theorem cbInv_reach {n : Nat} {s : CBState} (h : CBReach n s) : cbInv n s := by
  induction h with
  | refl => exact cbInv_init n
  | tail _ hstep ih => exact cbInv_step ih hstep

/-- A slot whose permit token has been consumed with no decode in flight:
no event can ever hand this slot a token again. -/
theorem deadSlot_step {i : Nat} {s t : CBState}
    (hd : s.slots[i]? = some ⟨0, false⟩) (hst : CBStep s t) :
    t.slots[i]? = some ⟨0, false⟩ := by
  cases hst with
  | decode j s =>
    rw [handlePictureDecode]
    cases hget : s.slots[j]? with
    | none => exact hd
    | some sl =>
      by_cases hp : 1 ≤ sl.permits
      · by_cases hij : j = i
        · subst hij
          rw [hd] at hget
          cases hget
          simp at hp
        · by_cases hr : s.run
          · simpa [hp, hr, List.getElem?_set_ne hij] using hd
          · simpa [hp, hr, List.getElem?_set_ne hij] using hd
      · simpa [hp] using hd
  | convert j s sl hi hf =>
    by_cases hij : j = i
    · subst hij
      rw [hd] at hi
      cases hi
      cases hf
    · simpa [List.getElem?_set_ne hij] using hd
  | stopRun s => exact hd

theorem deadSlot_reach {i : Nat} {s t : CBState}
    (hd : s.slots[i]? = some ⟨0, false⟩)
    (h : Relation.ReflTransGen CBStep s t) : t.slots[i]? = some ⟨0, false⟩ := by
  induction h with
  | refl => exact hd
  | tail _ hstep ih => exact deadSlot_step ih hstep

/-! ## Reorder-map and queue lemmas -/

theorem mapFind_insert (k : Int) (v : Buf) (l : List (Int × Buf)) :
    mapFind k (mapInsert k v l) = some v := by
  simp [mapInsert, mapFind]

theorem eraseKey_cons_self (k : Int) (v : Buf) (l : List (Int × Buf)) :
    eraseKey k ((k, v) :: l) = eraseKey k l := by
  simp [eraseKey]

theorem eraseKey_idem (k : Int) (l : List (Int × Buf)) :
    eraseKey k (eraseKey k l) = eraseKey k l := by
  induction l with
  | nil => rfl
  | cons kv rest ih =>
    by_cases h : kv.1 = k
    · simp [eraseKey, h]
    · simp [eraseKey, h]

theorem eraseKey_insert (k : Int) (v : Buf) (l : List (Int × Buf)) :
    eraseKey k (mapInsert k v l) = eraseKey k l := by
  rw [mapInsert, eraseKey_cons_self, eraseKey_idem]

/-- Fields of `convertStep` on a state with all three queues non-empty:
the converter always emits exactly the buffer it popped, in both the
matched and the mismatched branch. -/
theorem convertStep_spec (s : DecState) (ts : Int) (bq : List Int)
    (arr : Buf) (fq : List Buf) (desired : Int) (fo : List Int)
    (hb : s.bufferQueue = ts :: bq) (hf : s.frameQueue = arr :: fq)
    (ho : s.frameOrder = desired :: fo) :
    (convertStep s).bufferQueue = bq ∧
    (convertStep s).frameQueue = fq ∧
    (convertStep s).frameOrder = fo ∧
    (convertStep s).reorderQueue = s.reorderQueue ++ [arr] ∧
    (convertStep s).frameCount = s.frameCount ∧
    (convertStep s).draining = s.draining ∧
    (convertStep s).run = s.run ∧
    (convertStep s).reorderBuffer =
      (if desired = ts then s.reorderBuffer else eraseKey ts s.reorderBuffer) := by
  rw [convertStep, hb, hf, ho]
  by_cases h : desired = ts
  · simp [h]
  · simp only [h, if_neg, if_false, mapFind_insert, eraseKey_insert]
    simp

/-- Pushing any list of (packet, buffer) pairs into a running,
non-draining state succeeds and appends the buffers to `frame_queue_` in
submission order, appends one expected-order key per packet, and bumps
`frame_count_` once per packet; the output-side queues are untouched. -/
theorem pushAll_spec (l : List (Pkt × Buf)) :
    ∀ s : DecState, s.run = true → s.draining = false →
    ∃ s', pushAll l s = .ok s' ∧ s'.run = true ∧ s'.draining = false ∧
      s'.frameQueue = s.frameQueue ++ l.map Prod.snd ∧
      s'.reorderQueue = s.reorderQueue ∧
      s'.bufferQueue = s.bufferQueue ∧
      s'.reorderBuffer = s.reorderBuffer ∧
      s'.frameOrder.length = s.frameOrder.length + l.length ∧
      s'.frameCount = s.frameCount + l.length := by
  induction l with
  | nil =>
    intro s h1 h2
    exact ⟨s, rfl, h1, h2, by simp, rfl, rfl, rfl, by simp, by simp⟩
  | cons pb rest ih =>
    intro s h1 h2
    obtain ⟨p, b⟩ := pb
    by_cases hc : s.lastPts < 0
    · have hpush : push (some p) b s =
          .ok { s with lastPts := p.pts,
                       frameOrder := s.frameOrder ++ [p.pts],
                       pktQueue := s.pktQueue ++ [some p],
                       frameQueue := s.frameQueue ++ [b],
                       frameCount := s.frameCount + 1 } := by
        rw [push, h1]
        simp [hc]
      obtain ⟨s', hall, hr, hd, hfq, hrq, hbq, hrb, hfo, hfc⟩ :=
        ih { s with lastPts := p.pts,
                    frameOrder := s.frameOrder ++ [p.pts],
                    pktQueue := s.pktQueue ++ [some p],
                    frameQueue := s.frameQueue ++ [b],
                    frameCount := s.frameCount + 1 } h1 h2
      refine ⟨s', ?_, hr, hd, ?_, hrq, hbq, hrb, ?_, ?_⟩
      · simp only [pushAll, hpush]
        exact hall
      · rw [hfq]; simp
      · rw [hfo]
        simp only [List.length_append, List.length_cons, List.length_nil]
        omega
      · rw [hfc]
        simp only [List.length_cons]
        push_cast
        ring
    · have hpush : push (some p) b s =
          .ok { s with lastPts := s.lastPts + p.duration,
                       frameOrder := s.frameOrder ++ [s.lastPts + p.duration],
                       pktQueue := s.pktQueue ++ [some p],
                       frameQueue := s.frameQueue ++ [b],
                       frameCount := s.frameCount + 1 } := by
        rw [push, h1]
        simp [hc]
      obtain ⟨s', hall, hr, hd, hfq, hrq, hbq, hrb, hfo, hfc⟩ :=
        ih { s with lastPts := s.lastPts + p.duration,
                    frameOrder := s.frameOrder ++ [s.lastPts + p.duration],
                    pktQueue := s.pktQueue ++ [some p],
                    frameQueue := s.frameQueue ++ [b],
                    frameCount := s.frameCount + 1 } h1 h2
      refine ⟨s', ?_, hr, hd, ?_, hrq, hbq, hrb, ?_, ?_⟩
      · simp only [pushAll, hpush]
        exact hall
      · rw [hfq]; simp
      · rw [hfo]
        simp only [List.length_append, List.length_cons, List.length_nil]
        omega
      · rw [hfc]
        simp only [List.length_cons]
        push_cast
        ring

/-- Delivering display events appends their timestamps to `buffer_queue_`
and changes nothing else. -/
theorem displayAll_spec (ds : List Int) :
    ∀ s : DecState, displayAll ds s = { s with bufferQueue := s.bufferQueue ++ ds } := by
  induction ds with
  | nil => intro s; simp [displayAll]
  | cons d rest ih =>
    intro s
    rw [displayAll, ih]
    simp [handlePictureDisplay]

/-- Running the converter once per display event, with the buffers and
expected keys available, moves exactly the popped buffers — in
`frame_queue_` order — to the output queue. -/
theorem convertN_spec (n : Nat) :
    ∀ (s : DecState) (ds : List Int) (bufs : List Buf) (rest : List Buf),
      ds.length = n → bufs.length = n → s.frameOrder.length = n →
      s.bufferQueue = ds → s.frameQueue = bufs ++ rest →
      ∃ s', convertN n s = s' ∧
        s'.reorderQueue = s.reorderQueue ++ bufs ∧
        s'.bufferQueue = [] ∧ s'.frameQueue = rest ∧ s'.frameOrder = [] ∧
        s'.frameCount = s.frameCount ∧ s'.draining = s.draining ∧
        s'.run = s.run := by
  induction n with
  | zero =>
    intro s ds bufs rest hds hbufs hfo hbq hfq
    rw [List.length_eq_zero] at hds hbufs
    subst hds; subst hbufs
    refine ⟨s, rfl, by simp, by simpa using hbq, by simpa using hfq,
      List.length_eq_zero.mp hfo, rfl, rfl, rfl⟩
  | succ n ih =>
    intro s ds bufs rest hds hbufs hfo hbq hfq
    cases ds with
    | nil => simp at hds
    | cons d ds' =>
      cases bufs with
      | nil => simp at hbufs
      | cons b bufs' =>
        cases hfo' : s.frameOrder with
        | nil => rw [hfo'] at hfo; simp at hfo
        | cons k ks =>
          obtain ⟨h1, h2, h3, h4, h5, h6, h7, _⟩ :=
            convertStep_spec s d ds' b (bufs' ++ rest) k ks hbq (by simpa using hfq) hfo'
          obtain ⟨s', hconv, hrq, hbq', hfq', hfo'', hfc, hd, hr⟩ :=
            ih (convertStep s) ds' bufs' rest (by simpa using hds)
              (by simpa using hbufs)
              (by rw [h3]; rw [hfo'] at hfo; simpa using hfo) h1 h2
          refine ⟨s', by rw [convertN, hconv], ?_, hbq', hfq', hfo'', ?_, ?_, ?_⟩
          · rw [hrq, h4]; simp
          · rw [hfc, h5]
          · rw [hd, h6]
          · rw [hr, h7]

/-- Popping while draining with the output queue holding `bufs` returns
exactly `bufs` in order. -/
theorem popN_spec (bufs : List Buf) :
    ∀ s : DecState, s.draining = true → s.reorderQueue = bufs →
    ∃ s', popN bufs.length s = (bufs, s') ∧ s'.reorderQueue = [] ∧
      s'.draining = true ∧ s'.frameCount = s.frameCount - bufs.length := by
  induction bufs with
  | nil =>
    intro s hd hq
    exact ⟨s, rfl, hq, hd, by simp⟩
  | cons b rest ih =>
    intro s hd hq
    have hpop : pop s = (some b,
        { s with reorderQueue := rest, frameCount := s.frameCount - 1 }) := by
      rw [pop, hq]
      simp [hd]
    obtain ⟨s', hrec, hq', hd', hfc⟩ :=
      ih { s with reorderQueue := rest, frameCount := s.frameCount - 1 } hd rfl
    refine ⟨s', ?_, hq', hd', ?_⟩
    · rw [List.length_cons]
      simp only [popN, hpop, hrec]
    · rw [hfc]
      simp only [List.length_cons]
      push_cast
      ring

/-- C1: for any sequence of N packets with valid timestamps and durations
pushed via `Push`, each paired with a distinct output buffer, followed by
one end-of-stream marker, exactly N buffers eventually become retrievable
via `Pop` — one display event and converter iteration per packet — and the
order of the N successful `Pop` retrievals matches the submission order of
the packets; the (N+1)-th `Pop` finds nothing. -/
theorem C1_order_preservation (pairs : List (Pkt × Buf)) (ph : Buf)
    (disp : List Int)
    (hlen : disp.length = pairs.length)
    (_hdistinct : (pairs.map Prod.snd).Nodup)
    (_hvalid : ∀ pb ∈ pairs, 0 ≤ pb.1.pts ∧ 0 ≤ pb.1.duration) :
    scenario pairs ph disp = .ok (pairs.map Prod.snd, none) := by
  obtain ⟨s1, hall, hr, hd, hfq, hrq, hbq, hrb, hfo, hfc⟩ :=
    pushAll_spec pairs startedState rfl rfl
  have hpush2 : push none ph s1 =
      .ok { s1 with draining := true,
                    pktQueue := s1.pktQueue ++ [none],
                    frameQueue := s1.frameQueue ++ [ph],
                    frameCount := s1.frameCount + 1 } := by
    rw [push, hr]
    simp [hd]
  have hdisp := displayAll_spec disp
      { s1 with draining := true,
                pktQueue := s1.pktQueue ++ [none],
                frameQueue := s1.frameQueue ++ [ph],
                frameCount := s1.frameCount + 1 }
  obtain ⟨s3, hconv, hrq3, hbq3, hfq3, hfo3, hfc3, hd3, hr3⟩ :=
    convertN_spec disp.length
      { s1 with draining := true,
                pktQueue := s1.pktQueue ++ [none],
                frameQueue := s1.frameQueue ++ [ph],
                frameCount := s1.frameCount + 1,
                bufferQueue := s1.bufferQueue ++ disp }
      disp (pairs.map Prod.snd) [ph] rfl (by simp [hlen])
      (by
        show s1.frameOrder.length = disp.length
        have h0 : startedState.frameOrder.length = 0 := rfl
        rw [hfo, h0, hlen]
        omega)
      (by rw [hbq]; rfl)
      (by rw [hfq]; simp [startedState, initState])
  have hrq3' : s3.reorderQueue = pairs.map Prod.snd := by
    rw [hrq3]
    simp only []
    rw [hrq]
    rfl
  obtain ⟨s4, hpopn, hq4, hd4, _⟩ :=
    popN_spec (pairs.map Prod.snd) s3 (by rw [hd3]) hrq3'
  have hpop4 : (pop s4).1 = none := by
    rw [pop, hq4]
    simp [hd4]
  rw [scenario, start_initState]
  simp only [hall]
  simp only [hpush2]
  have hda : displayAll disp
      { s1 with draining := true,
                pktQueue := s1.pktQueue ++ [none],
                frameQueue := s1.frameQueue ++ [ph],
                frameCount := s1.frameCount + 1 } =
      { s1 with draining := true,
                pktQueue := s1.pktQueue ++ [none],
                frameQueue := s1.frameQueue ++ [ph],
                frameCount := s1.frameCount + 1,
                bufferQueue := s1.bufferQueue ++ disp } := by
    rw [hdisp]
  rw [hda, hconv]
  have hplen : pairs.length = (pairs.map Prod.snd).length := by simp
  rw [hplen, hpopn]
  simp [hpop4]

/-- Witness for C1 at the spec's concrete scenario (§8): three packets
with timestamps 100, 200, 300, duration 100 each, buffers 0, 1, 2, then
EOS with placeholder buffer 99. -/
theorem C1_order_preservation_witness :
    scenario [(⟨100, 100⟩, 0), (⟨200, 100⟩, 1), (⟨300, 100⟩, 2)] 99
      [100, 200, 300] = .ok ([0, 1, 2], none) :=
  C1_order_preservation [(⟨100, 100⟩, 0), (⟨200, 100⟩, 1), (⟨300, 100⟩, 2)] 99
    [100, 200, 300] (by decide) (by decide) (by decide)

theorem keysFrom_length (c : Int) (ps : List Pkt) :
    (keysFrom c ps).length = ps.length := by
  induction ps generalizing c with
  | nil => rfl
  | cons p rest ih => simp [keysFrom, ih]

theorem keysFrom_getElem (ps : List Pkt) :
    ∀ (c : Int) (k : Nat), k < ps.length →
      (keysFrom c ps)[k]? =
        some (c + (((ps.take (k + 1)).map Pkt.duration).sum)) := by
  induction ps with
  | nil => intro c k hk; simp at hk
  | cons p rest ih =>
    intro c k hk
    cases k with
    | zero => simp [keysFrom]
    | succ k =>
      rw [keysFrom, List.getElem?_cons_succ, ih (c + p.duration) k (by simpa using hk)]
      simp
      ring

/-- Pushing packets while the cursor is already non-negative: every key
is cursor-advanced, never re-seeded. -/
theorem pushAll_keys (l : List (Pkt × Buf)) :
    ∀ s : DecState, s.run = true → s.draining = false → 0 ≤ s.lastPts →
      (∀ pb ∈ l, 0 ≤ pb.1.duration) →
      ∃ s', pushAll l s = .ok s' ∧
        s'.frameOrder = s.frameOrder ++ keysFrom s.lastPts (l.map Prod.fst) ∧
        s'.lastPts = s.lastPts + ((l.map (fun pb => pb.1.duration)).sum) := by
  induction l with
  | nil =>
    intro s h1 h2 h3 h4
    exact ⟨s, rfl, by simp [keysFrom], by simp⟩
  | cons pb rest ih =>
    intro s h1 h2 h3 h4
    obtain ⟨p, b⟩ := pb
    have hc : ¬s.lastPts < 0 := by omega
    have hpush : push (some p) b s =
        .ok { s with lastPts := s.lastPts + p.duration,
                     frameOrder := s.frameOrder ++ [s.lastPts + p.duration],
                     pktQueue := s.pktQueue ++ [some p],
                     frameQueue := s.frameQueue ++ [b],
                     frameCount := s.frameCount + 1 } := by
      rw [push, h1]
      simp [hc]
    have hdur : 0 ≤ p.duration := h4 (p, b) (by simp)
    obtain ⟨s', hall, hfo, hlp⟩ :=
      ih { s with lastPts := s.lastPts + p.duration,
                  frameOrder := s.frameOrder ++ [s.lastPts + p.duration],
                  pktQueue := s.pktQueue ++ [some p],
                  frameQueue := s.frameQueue ++ [b],
                  frameCount := s.frameCount + 1 } h1 h2
        (by
          show 0 ≤ s.lastPts + p.duration
          have := h4 (p, b) (by simp)
          simp at this
          omega)
        (fun x hx => h4 x (by simp [hx]))
    refine ⟨s', ?_, ?_, ?_⟩
    · simp only [pushAll, hpush]
      exact hall
    · rw [hfo]
      show (s.frameOrder ++ [s.lastPts + p.duration]) ++
          keysFrom (s.lastPts + p.duration) (rest.map Prod.fst) = _
      rw [List.map_cons, keysFrom, List.append_assoc]
      rfl
    · rw [hlp]
      show s.lastPts + p.duration + (rest.map (fun pb => pb.1.duration)).sum = _
      rw [List.map_cons, List.sum_cons]
      ring

/-- C4 counterexample: from a fresh decoder, push a first packet with
timestamp -5 (duration 10), then a packet with timestamp 7 and duration 3.
Because the seeded cursor is still negative, the second push re-seeds the
cursor with the packet's own timestamp instead of advancing by its
duration: the produced keys are [-5, 7], while the claim requires the
second key to be -5 + 3 = -2. -/
theorem C4_cursor_counterexample :
    (pushAll [(⟨-5, 10⟩, 0), (⟨7, 3⟩, 1)] startedState).map DecState.frameOrder
      = .ok [-5, 7] ∧ ((7 : Int) ≠ -5 + 3) :=
  ⟨rfl, by decide⟩

/-- C4 (amended): for every sequence of non-EOS packets pushed from a
fresh decoder (cursor unset), provided the first packet's timestamp is
nonnegative and every subsequent packet's declared duration is
nonnegative, the first packet's timestamp seeds the cursor and becomes
the first key, each subsequent packet's key is the cursor advanced by
that packet's duration (not the packet's own timestamp), and the k-th
key equals the first packet's timestamp plus the sum of the durations of
packets 2 through k. -/
theorem C4_cursor_keys (p0 : Pkt) (b0 : Buf) (rest : List (Pkt × Buf))
    (s : DecState) (h1 : s.run = true) (h2 : s.draining = false)
    (h3 : s.lastPts < 0) (h4 : s.frameOrder = [])
    (hp0 : 0 ≤ p0.pts) (hdur : ∀ pb ∈ rest, 0 ≤ pb.1.duration) :
    ∃ s', pushAll ((p0, b0) :: rest) s = .ok s' ∧
      s'.frameOrder = p0.pts :: keysFrom p0.pts (rest.map Prod.fst) ∧
      ∀ k : Nat, k < rest.length →
        s'.frameOrder[k + 1]? =
          some (p0.pts + ((((rest.map Prod.fst).take (k + 1)).map Pkt.duration).sum)) := by
  have hpush : push (some p0) b0 s =
      .ok { s with lastPts := p0.pts,
                   frameOrder := s.frameOrder ++ [p0.pts],
                   pktQueue := s.pktQueue ++ [some p0],
                   frameQueue := s.frameQueue ++ [b0],
                   frameCount := s.frameCount + 1 } := by
    rw [push, h1]
    simp [h3]
  obtain ⟨s', hall, hfo, _⟩ :=
    pushAll_keys rest
      { s with lastPts := p0.pts,
               frameOrder := s.frameOrder ++ [p0.pts],
               pktQueue := s.pktQueue ++ [some p0],
               frameQueue := s.frameQueue ++ [b0],
               frameCount := s.frameCount + 1 } h1 h2 hp0 hdur
  have hfo' : s'.frameOrder = p0.pts :: keysFrom p0.pts (rest.map Prod.fst) := by
    rw [hfo]
    show (s.frameOrder ++ [p0.pts]) ++ keysFrom p0.pts (rest.map Prod.fst) = _
    rw [h4]
    simp
  refine ⟨s', ?_, hfo', ?_⟩
  · simp only [pushAll, hpush]
    exact hall
  · intro k hk
    rw [hfo', List.getElem?_cons_succ]
    exact keysFrom_getElem (rest.map Prod.fst) p0.pts k (by simpa using hk)

/-- Witness for the amended C4: packets (100,100), (200,100), (300,100)
produce the keys 100, 200, 300. -/
theorem C4_cursor_keys_witness :
    ∃ s', pushAll [(⟨100, 100⟩, 0), (⟨200, 100⟩, 1), (⟨300, 100⟩, 2)]
        startedState = .ok s' ∧
      s'.frameOrder = (100 : Int) ::
        keysFrom 100 ([(⟨200, 100⟩, 1), (⟨300, 100⟩, 2)].map Prod.fst) ∧
      ∀ k : Nat, k < 2 →
        s'.frameOrder[k + 1]? =
          some (100 + (((([(⟨200, 100⟩, 1), (⟨300, 100⟩, 2)].map Prod.fst).take
            (k + 1)).map Pkt.duration).sum)) :=
  C4_cursor_keys ⟨100, 100⟩ 0 [(⟨200, 100⟩, 1), (⟨300, 100⟩, 2)] startedState
    rfl rfl (by decide) rfl (by decide) (by decide)

/-! ## Stop / Clear field lemmas -/

theorem stop_run (s : DecState) : (stop s).run = false := by
  simp only [stop]
  by_cases h : s.run <;> simp [h]

theorem stop_lastPts (s : DecState) : (stop s).lastPts = s.lastPts := by
  simp only [stop]
  by_cases h : s.run <;> simp [h]

theorem stop_frameOrder (s : DecState) : (stop s).frameOrder = s.frameOrder := by
  simp only [stop]
  by_cases h : s.run <;> simp [h]

theorem clear_run (s : DecState) : (clear s).run = false := stop_run s

theorem clear_lastPts (s : DecState) : (clear s).lastPts = s.lastPts :=
  stop_lastPts s

theorem clear_frameOrder (s : DecState) : (clear s).frameOrder = s.frameOrder :=
  stop_frameOrder s

theorem clear_permits (s : DecState) : (clear s).permits = [] := rfl

/-! ## Claim theorems (continued) -/

/-- C2: in every converter iteration in which the surface's actual
timestamp `ts` differs from the expected key popped from the
Expected-Order Sequence, the converted buffer is inserted into the
Reorder Map keyed by `ts`, then looked up under that same key in the
same iteration, emitted to the output queue and erased; the map ends the
iteration with at most what it held before (any stale entry at `ts`
removed), so a map that is empty before the iteration — as it always is,
starting from construction — is empty after it, and every converted
frame is emitted in the iteration that converts it. -/
theorem C2_reorder_map_inert (s : DecState) (ts desired : Int) (bq : List Int)
    (arr : Buf) (fq : List Buf) (fo : List Int)
    (hb : s.bufferQueue = ts :: bq) (hf : s.frameQueue = arr :: fq)
    (ho : s.frameOrder = desired :: fo) (hne : desired ≠ ts) :
    (convertStep s).reorderQueue = s.reorderQueue ++ [arr] ∧
    (convertStep s).reorderBuffer = eraseKey ts s.reorderBuffer ∧
    (s.reorderBuffer = [] → (convertStep s).reorderBuffer = []) := by
  obtain ⟨_, _, _, h4, _, _, _, h8⟩ :=
    convertStep_spec s ts bq arr fq desired fo hb hf ho
  rw [if_neg hne] at h8
  exact ⟨h4, h8, fun h => by rw [h8, h]; rfl⟩

/-- Witness for C2 at `sMismatch` (surface timestamp 50, expected key
100). -/
theorem C2_reorder_map_inert_witness :
    (convertStep sMismatch).reorderQueue = sMismatch.reorderQueue ++ [7] ∧
    (convertStep sMismatch).reorderBuffer = eraseKey 50 sMismatch.reorderBuffer ∧
    (sMismatch.reorderBuffer = [] → (convertStep sMismatch).reorderBuffer = []) :=
  C2_reorder_map_inert sMismatch 50 100 [] 7 [] [] rfl rfl rfl (by decide)

/-- C3: in every state reachable from `Start`, each slot's permit queue
plus its in-flight decode hold at most one token (so the decode-request
callback cannot successfully acquire the permit for a slot twice without
an intervening release by the converter for that slot, acquisition
requiring a token), and the number of concurrently in-flight decode
requests never exceeds the slot count `kMaxOutputSurfaces` (the model is
parametric in the slot count `n`). -/
theorem C3_bounded_concurrency {n : Nat} {s : CBState} (h : CBReach n s) :
    (∀ sl ∈ s.slots, sl.permits + (if sl.inflight then 1 else 0) ≤ 1) ∧
    s.slots.countP (fun sl => sl.inflight) ≤ n := by
  obtain ⟨hlen, hok⟩ := cbInv_reach h
  refine ⟨fun sl hsl => hok sl hsl, ?_⟩
  calc s.slots.countP (fun sl => sl.inflight)
      ≤ s.slots.length := List.countP_le_length _
    _ = n := hlen

/-- Witness for C3 at the freshly started two-slot pipeline. -/
theorem C3_bounded_concurrency_witness :
    (∀ sl ∈ (cbInit 2).slots, sl.permits + (if sl.inflight then 1 else 0) ≤ 1) ∧
    (cbInit 2).slots.countP (fun sl => sl.inflight) ≤ 2 :=
  C3_bounded_concurrency Relation.ReflTransGen.refl

/-- C5: `Push` fails as a signaled precondition failure (a `CHECK`
abort, modelled as the `.error` branch — no successor state is produced,
so no packet, buffer or expected-order key is enqueued and the
pending-frame counter is unchanged) whenever the pipeline is not
running, and whenever an end-of-stream marker is submitted while already
draining; both checks run before any queue mutation in the source. -/
theorem C5_push_contract (s : DecState) (pkt : Option Pkt) (buf ph : Buf) :
    (s.run = false → push pkt buf s = .error "Check failed: run_.load()") ∧
    (s.run = true → s.draining = true →
      push none ph s = .error "Start draining twice...") := by
  constructor
  · intro h
    simp [push, h]
  · intro h1 h2
    simp [push, h1, h2]

/-- Witness for C5: pushing into a fresh (stopped) decoder fails the
running check; pushing a second EOS into a draining decoder fails the
draining check. -/
theorem C5_push_contract_witness :
    push (some ⟨0, 0⟩) 0 initState = .error "Check failed: run_.load()" ∧
    push none 5 sEOS = .error "Start draining twice..." :=
  ⟨(C5_push_contract initState (some ⟨0, 0⟩) 0 5).1 rfl,
   (C5_push_contract sEOS (some ⟨0, 0⟩) 0 5).2 rfl rfl⟩

/-- C6 counterexample: after `Start` followed by a single EOS `Push`,
the stream is draining and no frame is ready, so the claim's "otherwise"
branch applies and demands a buffer with found=true; the code's `Pop`
returns found=false (the converted-output queue is empty). -/
theorem C6_pop_counterexample :
    push none 99 startedState = .ok sEOS ∧ sEOS.draining = true ∧
    sEOS.reorderQueue = [] ∧ (pop sEOS).1 = none :=
  ⟨rfl, rfl, rfl, rfl⟩

/-- C6 (amended): `Pop` is non-blocking and returns found=false whenever
the pending-frame counter is zero and the stream is not draining (in
particular before any `Push`), and also whenever the converted-output
queue is empty (even while draining); otherwise it returns the front
ready buffer with found=true and decrements the pending-frame counter. -/
theorem C6_pop_nonblocking (s : DecState) :
    ((s.frameCount = 0 ∧ s.draining = false) → pop s = (none, s)) ∧
    (s.reorderQueue = [] → pop s = (none, s)) ∧
    (∀ b rest, ¬(s.frameCount = 0 ∧ s.draining = false) →
      s.reorderQueue = b :: rest →
      pop s = (some b, { s with reorderQueue := rest,
                                frameCount := s.frameCount - 1 })) := by
  refine ⟨?_, ?_, ?_⟩
  · intro h
    rw [pop, if_pos h]
  · intro h
    rw [pop, h]
    by_cases hg : s.frameCount = 0 ∧ s.draining = false
    · rw [if_pos hg]
    · rw [if_neg hg]
  · intro b rest hg hq
    rw [pop, if_neg hg, hq]

/-- Witness for the amended C6: `Pop` on the fresh decoder finds nothing,
and on a state with a ready buffer returns it. -/
theorem C6_pop_nonblocking_witness :
    pop initState = (none, initState) ∧
    pop { sEOS with reorderQueue := [4] } =
      (some 4, { sEOS with reorderQueue := [], frameCount := sEOS.frameCount - 1 }) :=
  ⟨(C6_pop_nonblocking initState).1 (by decide),
   (C6_pop_nonblocking { sEOS with reorderQueue := [4] }).2.2 4 [] (by decide) rfl⟩

/-- C7 counterexample: `Start` a fresh decoder, `Push` one packet with
timestamp 100, then `Clear`: the counter and Reorder Map are reset, but
the Expected-Order Sequence still holds the key 100 of the previous
session. -/
theorem C7_clear_counterexample :
    push (some ⟨100, 100⟩) 0 startedState = .ok sPushed ∧
    (clear sPushed).frameOrder = [100] ∧ ((100 : Int) :: []) ≠ ([] : List Int) :=
  ⟨rfl, rfl, by decide⟩

/-- C7 (amended): after `Clear` returns, the pending-frame counter is 0
and the Reorder Map is empty, but the Expected-Order Sequence is not
cleared by `Clear` — it keeps exactly the keys it had; it is replaced by
a fresh empty queue only at the next `Start`. -/
theorem C7_clear_resets (s : DecState) :
    (clear s).frameCount = 0 ∧ (clear s).reorderBuffer = [] ∧
    (clear s).frameOrder = s.frameOrder ∧
    ∃ s', start (clear s) = .ok s' ∧ s'.frameOrder = [] := by
  refine ⟨rfl, rfl, clear_frameOrder s, ?_⟩
  have h1 : (clear s).run = false := clear_run s
  have hs : start (clear s) =
      .ok { clear s with pktQueue := [], frameQueue := [], bufferQueue := [],
                         reorderQueue := [], frameOrder := [],
                         permits := List.replicate kMaxOutputSurfaces 1,
                         run := true, launcherJoinable := true,
                         converterJoinable := true,
                         spawned := (clear s).spawned + 2 } := by
    simp [start, h1, clear_permits]
  exact ⟨_, hs, rfl⟩

/-- C8: `Start` while running returns with the state unchanged (in
particular the count of ever-spawned threads is unchanged); `Stop` while
already stopped (not running, both threads already joined) is a no-op;
and after any `Stop` both owned threads are joined. -/
theorem C8_start_stop_idempotent (s : DecState) :
    (s.run = true → start s = .ok s) ∧
    (s.run = false → s.launcherJoinable = false → s.converterJoinable = false →
      stop s = s) ∧
    ((stop s).launcherJoinable = false ∧ (stop s).converterJoinable = false) := by
  refine ⟨?_, ?_, rfl, rfl⟩
  · intro h
    simp [start, h]
  · intro h1 h2 h3
    obtain ⟨run, draining, fc, lp, fo, pq, fq, bq, rq, rb, pm, lj, cj, sp⟩ := s
    dsimp only at h1 h2 h3
    subst h1
    subst h2
    subst h3
    rfl

/-- Witness for C8: `Start` on the already-running started state is the
identity; `Stop` on the fresh (stopped, joined) decoder is a no-op. -/
theorem C8_start_stop_idempotent_witness :
    start startedState = .ok startedState ∧ stop initState = initState :=
  ⟨(C8_start_stop_idempotent startedState).1 rfl,
   (C8_start_stop_idempotent initState).2.1 rfl rfl rfl⟩

/-- C9: `Clear` does not reset the running cursor `last_pts_`: for any
session whose cursor is non-negative, after `Clear` then `Start`, the
first packet pushed in the new session gets the expected-order key
`last_pts_ + duration` — the stale cursor advanced by the new packet's
duration — and not the packet's own timestamp (whenever the two
differ). -/
theorem C9_stale_cursor (s : DecState) (p : Pkt) (b : Buf)
    (hlp : 0 ≤ s.lastPts) :
    ∃ s1 s2, start (clear s) = .ok s1 ∧ push (some p) b s1 = .ok s2 ∧
      s2.lastPts = s.lastPts + p.duration ∧
      s2.frameOrder = [s.lastPts + p.duration] ∧
      (p.pts ≠ s.lastPts + p.duration → s2.frameOrder ≠ [p.pts]) := by
  have h1 : (clear s).run = false := clear_run s
  have hs : start (clear s) =
      .ok { clear s with pktQueue := [], frameQueue := [], bufferQueue := [],
                         reorderQueue := [], frameOrder := [],
                         permits := List.replicate kMaxOutputSurfaces 1,
                         run := true, launcherJoinable := true,
                         converterJoinable := true,
                         spawned := (clear s).spawned + 2 } := by
    simp [start, h1, clear_permits]
  have hl1 : (clear s).lastPts = s.lastPts := clear_lastPts s
  have hnl : ¬(clear s).lastPts < 0 := by
    rw [hl1]
    omega
  have hp : push (some p) b
      { clear s with pktQueue := [], frameQueue := [], bufferQueue := [],
                     reorderQueue := [], frameOrder := [],
                     permits := List.replicate kMaxOutputSurfaces 1,
                     run := true, launcherJoinable := true,
                     converterJoinable := true,
                     spawned := (clear s).spawned + 2 } =
      .ok { clear s with pktQueue := [some p], frameQueue := [b],
                         bufferQueue := [], reorderQueue := [],
                         frameOrder := [(clear s).lastPts + p.duration],
                         lastPts := (clear s).lastPts + p.duration,
                         frameCount := (clear s).frameCount + 1,
                         permits := List.replicate kMaxOutputSurfaces 1,
                         run := true, launcherJoinable := true,
                         converterJoinable := true,
                         spawned := (clear s).spawned + 2 } := by
    simp [push, hnl]
  refine ⟨_, _, hs, hp, ?_, ?_, ?_⟩
  · show (clear s).lastPts + p.duration = s.lastPts + p.duration
    rw [hl1]
  · show [(clear s).lastPts + p.duration] = [s.lastPts + p.duration]
    rw [hl1]
  · intro hne
    show [(clear s).lastPts + p.duration] ≠ [p.pts]
    rw [hl1]
    intro hcontra
    exact hne (by injection hcontra with h; exact h.symm)

/-- Witness for C9: a session whose cursor ended at 100; after `Clear`
and `Start`, pushing a packet with timestamp 500 and duration 40 yields
key 140, not 500. -/
theorem C9_stale_cursor_witness :
    ∃ s1 s2, start (clear sPushed) = .ok s1 ∧
      push (some ⟨500, 40⟩) 3 s1 = .ok s2 ∧
      s2.lastPts = sPushed.lastPts + (40 : Int) ∧
      s2.frameOrder = [sPushed.lastPts + (40 : Int)] ∧
      ((500 : Int) ≠ sPushed.lastPts + (40 : Int) → s2.frameOrder ≠ [(500 : Int)]) :=
  C9_stale_cursor sPushed ⟨500, 40⟩ 3 (by decide)

/-- C10: if the decode-request callback pops the permit for the
requested slot but then observes `run_` false, it returns failure (0)
without submitting the decode (the slot does not become in-flight) and
without pushing the permit back; from then on, for the remainder of the
session, no event can put a token back into that slot's permit queue. -/
theorem C10_consumed_permit {n : Nat} {s : CBState} {i : Nat} {sl : Slot}
    (hreach : CBReach n s) (hrun : s.run = false)
    (hi : s.slots[i]? = some sl) (hp : 1 ≤ sl.permits) :
    (handlePictureDecode i s).1 = 0 ∧
    (handlePictureDecode i s).2.slots[i]? = some ⟨0, false⟩ ∧
    ∀ t, Relation.ReflTransGen CBStep (handlePictureDecode i s).2 t →
      t.slots[i]? = some ⟨0, false⟩ := by
  obtain ⟨hlen, hok⟩ := cbInv_reach hreach
  have hmem : sl ∈ s.slots := by
    obtain ⟨hlt, hEq⟩ := List.getElem?_eq_some.mp hi
    exact hEq ▸ List.getElem_mem hlt
  have hsl := hok sl hmem
  have hperm : sl.permits = 1 := by
    rw [slotOK] at hsl
    cases hf : sl.inflight
    · rw [hf] at hsl
      simp at hsl
      omega
    · rw [hf] at hsl
      simp at hsl
      omega
  have hinf : sl.inflight = false := by
    rw [slotOK, hperm] at hsl
    cases hf : sl.inflight
    · rfl
    · rw [hf] at hsl
      simp at hsl
  have hres : handlePictureDecode i s =
      (0, { s with slots := s.slots.set i ⟨sl.permits - 1, sl.inflight⟩ }) := by
    rw [handlePictureDecode, hi]
    simp [hp, hrun]
  have hlt : i < s.slots.length := (List.getElem?_eq_some.mp hi).1
  have hdead : ({ s with slots := s.slots.set i ⟨sl.permits - 1, sl.inflight⟩ } :
      CBState).slots[i]? = some ⟨0, false⟩ := by
    show (s.slots.set i ⟨sl.permits - 1, sl.inflight⟩)[i]? = some ⟨0, false⟩
    rw [hperm, hinf]
    rw [List.getElem?_set_self]
    simp [hlt]
  refine ⟨by rw [hres], ?_, ?_⟩
  · rw [hres]
    exact hdead
  · intro t ht
    rw [hres] at ht
    exact deadSlot_reach hdead ht

/-- Witness for C10: stop the freshly started one-slot pipeline (so
`run_` is false but the slot still holds its token), then invoke the
decode callback for slot 0. -/
theorem C10_consumed_permit_witness :
    (handlePictureDecode 0 { cbInit 1 with run := false }).1 = 0 ∧
    (handlePictureDecode 0 { cbInit 1 with run := false }).2.slots[0]?
      = some ⟨0, false⟩ ∧
    ∀ t, Relation.ReflTransGen CBStep
        (handlePictureDecode 0 { cbInit 1 with run := false }).2 t →
      t.slots[0]? = some ⟨0, false⟩ :=
  C10_consumed_permit
    (Relation.ReflTransGen.single (CBStep.stopRun (cbInit 1)))
    rfl rfl (by decide)

end Decord
